import Mathlib

/-!
Verification development for the Schelling segregation model of
`lectures/abm/abm-1.ipynb` (classes `SchellingAgent` and `SchellingModel`).

The notebook's own code is embedded directly.  The grid and scheduler it
uses (`mesa.space.SingleGrid`, `mesa.time.RandomActivation`) are external
library code whose source is not part of this repository; those parts are
modelled from the specification's description of the SpatialGrid and
Scheduler components, and each such definition is marked
`Modelled from the spec:` in its doc comment.

Python floats are modelled by rationals; `np.mean` of an empty list (a NaN
in the source) is modelled by `Option ℚ` with `none` playing the role of
NaN, and the source's `NaN < h` comparison (which is `False`) by `nanLt`.
Randomness is made explicit: each random draw of the source is an entry of
an input stream, so that every function is deterministic in its inputs.
-/

set_option autoImplicit false

/-- A grid coordinate, as the `(x, y)` tuples of the notebook. -/
abbrev Pos := Nat × Nat

/-- The two agent types drawn by `np.random.choice(["triangle", "square"])`. -/
inductive AgentType where
  | triangle
  | square
deriving DecidableEq, Repr

/-- The state of one `SchellingAgent`: its current position, immutable
type tag, and homophily threshold, as set up in `SchellingAgent.__init__`. -/
structure SchellingAgent where
  pos : Pos
  type : AgentType
  homophily : ℚ
deriving DecidableEq, Repr

/-- All grid coordinates, in the order of mesa's `coord_iter`
(`x` major, `y` minor). -/
def coordsOf (w h : Nat) : List Pos :=
  (List.range w).flatMap (fun x => (List.range h).map (fun y => (x, y)))

/-- Modelled from the spec: the state of the missing `mesa.space.SingleGrid` —
dimensions, the wraparound flag, the occupancy map (coordinate to agent
identity, here the agent's index in the scheduler's registry), and the
incrementally maintained empty-cell index. -/
structure SingleGrid where
  width : Nat
  height : Nat
  torus : Bool
  occ : List (Pos × Nat)
  empties : List Pos
deriving DecidableEq, Repr

namespace SingleGrid

/-- Modelled from the spec: a freshly constructed grid
(`SingleGrid(width, height, torus=...)`) with every cell empty. -/
def mk0 (w h : Nat) (torus : Bool) : SingleGrid :=
  { width := w, height := h, torus := torus, occ := [], empties := coordsOf w h }

/-- Modelled from the spec: `occupant_at` — the agent identity recorded at a
coordinate, or `none` for an empty cell. -/
def occupantAt (g : SingleGrid) (p : Pos) : Option Nat :=
  (g.occ.find? (fun pr => decide (pr.1 = p))).map (fun pr => pr.2)

/-- Modelled from the spec: the grid's `place` primitive (mesa
`_place_agent`) — bind the identity to the coordinate and drop the
coordinate from the empty-cell index. -/
def placeCell (g : SingleGrid) (p : Pos) (i : Nat) : SingleGrid :=
  { g with occ := (p, i) :: g.occ,
           empties := g.empties.filter (fun q => decide (¬ q = p)) }

/-- Modelled from the spec: the grid's `remove` primitive (mesa
`_remove_agent`) — clear the binding at the coordinate and add the freed
coordinate back to the empty-cell index. -/
def removeCell (g : SingleGrid) (p : Pos) : SingleGrid :=
  { g with occ := g.occ.filter (fun pr => decide (¬ pr.1 = p)),
           empties := p :: g.empties }

/-- Wrap one coordinate component with an offset, modulo the dimension:
toroidal coordinate arithmetic (Python's `%` on ints is `Int.emod`). -/
def wrap1 (n : Nat) (x : Nat) (d : Int) : Nat :=
  (((x : Int) + d) % (n : Int)).toNat

/-- The eight Moore-neighborhood offsets, excluding the center. -/
def mooreOffsets : List (Int × Int) :=
  [(-1, -1), (-1, 0), (-1, 1), (0, -1), (0, 1), (1, -1), (1, 0), (1, 1)]

/-- Modelled from the spec: `neighbors(position)` — the up-to-eight Moore
neighborhood coordinates, taken modulo the dimensions on a toroidal grid
and restricted to in-bounds coordinates on a bounded grid. -/
def neighborCells (g : SingleGrid) (p : Pos) : List Pos :=
  if g.torus then
    mooreOffsets.map (fun d => (wrap1 g.width p.1 d.1, wrap1 g.height p.2 d.2))
  else
    mooreOffsets.filterMap (fun d =>
      let qx : Int := (p.1 : Int) + d.1
      let qy : Int := (p.2 : Int) + d.2
      if 0 ≤ qx ∧ qx < (g.width : Int) ∧ 0 ≤ qy ∧ qy < (g.height : Int) then
        some (qx.toNat, qy.toNat)
      else
        none)

end SingleGrid

/-- Modelled from the spec: `EmptyGridExhausted`, the error the grid raises
when a relocation is requested and no empty cell exists (the source's mesa
`move_to_empty` raises a plain `Exception` in that situation). -/
inductive GridError where
  | emptyGridExhausted
deriving DecidableEq, Repr

/-- The state of a `SchellingModel`: the grid, the scheduler's agent
registry (`self.schedule`, agent identity = registration index), and the
per-tick relocation counter `self.moved`. -/
structure SchellingModel where
  grid : SingleGrid
  agents : List SchellingAgent
  moved : Nat
deriving DecidableEq, Repr

namespace SchellingModel

/-- Modelled from the spec: mesa's `neighbor_iter` — the agents found in
the occupied cells of the Moore neighborhood of `p` (empty cells yield
nothing). -/
def neighborAgents (m : SchellingModel) (p : Pos) : List SchellingAgent :=
  (m.grid.neighborCells p).filterMap
    (fun c => (m.grid.occupantAt c).bind (fun i => m.agents[i]?))

end SchellingModel

/-- The boolean list `[self.type == other.type for other in
self.model.grid.neighbor_iter(self.pos)]` of `SchellingAgent.step`. -/
def simList (m : SchellingModel) (a : SchellingAgent) : List Bool :=
  (m.neighborAgents a.pos).map (fun o => a.type == o.type)

/-- `np.mean` over a boolean list: the fraction of `True` entries, or
`none` (modelling the NaN that numpy returns) on the empty list.  The
fraction is built with `mkRat`; `npMean_eq_div` below restates it as the
division `count / length` of the source. -/
def npMean (l : List Bool) : Option ℚ :=
  if l.isEmpty then none else some (mkRat (l.count true) l.length)


/-- The source comparison `pct_similar_neighbors < self.homophily`: a
comparison against NaN (`none`) is `False`, as in IEEE floats. -/
def nanLt (x : Option ℚ) (h : ℚ) : Bool :=
  match x with
  | none => false
  | some s => decide (s < h)

/-- `SchellingAgent.step` of the notebook, for the agent registered at
index `i`.  It computes `pct_similar_neighbors` as the `np.mean` of the
same-type booleans over `neighbor_iter`, and if that is `< homophily` it
calls the grid's `move_to_empty` (modelled from the spec: raise
`EmptyGridExhausted` when no empty cell exists, otherwise relocate to the
empty cell selected by the random draw `pick`) and then increments the
model's `moved` counter.  The returned flag records whether the agent
relocated.  The source has no handler around `move_to_empty`, so the
error propagates out of `step`. -/
def SchellingAgent.step (m : SchellingModel) (i : Nat) (pick : Nat) :
    Except GridError (SchellingModel × Bool) :=
  match m.agents[i]? with
  | none => Except.ok (m, false)
  | some a =>
    if nanLt (npMean (simList m a)) a.homophily then
      match m.grid.empties with
      | [] => Except.error GridError.emptyGridExhausted
      | e :: es =>
        let newPos := (e :: es).getD (pick % (e :: es).length) e
        let g1 := m.grid.placeCell newPos i
        let g2 := g1.removeCell a.pos
        Except.ok ({ grid := g2,
                     agents := m.agents.set i { a with pos := newPos },
                     moved := m.moved + 1 }, true)
    else
      Except.ok (m, false)

/-- The scheduler's activation loop (modelled from the spec: mesa's
`RandomActivation.step` calls each scheduled agent's `step` once, in the
shuffled order `order`).  `k` indexes the stream `mv` of relocation-target
draws, advanced once per successful relocation; an error from any agent's
step propagates and aborts the loop, as in the source, where the raised
exception has no handler. -/
def tickGo (mv : Nat → Nat) : List Nat → Nat → SchellingModel →
    Except GridError SchellingModel
  | [], _, m => Except.ok m
  | i :: rest, k, m =>
    match SchellingAgent.step m i (mv k) with
    | Except.error e => Except.error e
    | Except.ok (m', movedB) => tickGo mv rest (if movedB then k + 1 else k) m'

/-- The recursion of the Fisher–Yates shuffle, structural in a fuel
argument that an invocation sets to the list length (removing one element
per round, the fuel never runs out). -/
def shuffleGo {α : Type} (ρ : Nat → Nat) : Nat → Nat → List α → List α
  | 0, _, l => l
  | _ + 1, _, [] => []
  | fuel + 1, k, e :: es =>
    let l := e :: es
    let j := ρ k % l.length
    l.getD j e :: shuffleGo ρ fuel (k + 1) (l.eraseIdx j)

/-- Modelled from the spec: the Fisher–Yates shuffle with which the
scheduler generates the tick's activation permutation, driven by the
stream `ρ` of random draws. -/
def shuffleL {α : Type} (ρ : Nat → Nat) (k : Nat) (l : List α) : List α :=
  shuffleGo ρ l.length k l

/-- `SchellingModel.step` of the notebook: reset `self.moved`, then run the
scheduler over a random permutation of the registered agents (`ρ` drives
the shuffle, `mv` the relocation-target choices). -/
def SchellingModel.stepM (m : SchellingModel) (ρ mv : Nat → Nat) :
    Except GridError SchellingModel :=
  tickGo mv (shuffleL ρ 0 (List.range m.agents.length)) 0 { m with moved := 0 }

/-- The population loop of `SchellingModel.__init__`: for each cell of
`coord_iter`, if the model RNG draw for that cell (`placeDraw`, the
successive values of `self.random.random()`) is `< density`, create an
agent of the type given by the next global numpy draw (`typeDraw`, the
successive results of `np.random.choice`), register it with the scheduler
and place it on the grid at that cell. -/
def initLoop (density homophily : ℚ) (placeDraw : Nat → ℚ)
    (typeDraw : Nat → AgentType) :
    List Pos → Nat → SingleGrid → List SchellingAgent →
    SingleGrid × List SchellingAgent
  | [], _, g, ags => (g, ags)
  | p :: rest, k, g, ags =>
    if placeDraw k < density then
      let a : SchellingAgent :=
        { pos := p, type := typeDraw ags.length, homophily := homophily }
      initLoop density homophily placeDraw typeDraw rest (k + 1)
        (g.placeCell p ags.length) (ags ++ [a])
    else
      initLoop density homophily placeDraw typeDraw rest (k + 1) g ags

/-- `SchellingModel.__init__` of the notebook: build the toroidal grid
(`SingleGrid(width, height, torus=True)`) and populate it at the target
density.  The constructor takes no seed parameter and performs no
validation of its arguments; the random draws it consumes are the explicit
streams `placeDraw` (the model RNG) and `typeDraw` (the global numpy RNG,
whose state persists across constructions). -/
def SchellingModel.init (w h : Nat) (density homophily : ℚ)
    (placeDraw : Nat → ℚ) (typeDraw : Nat → AgentType) : SchellingModel :=
  let st := initLoop density homophily placeDraw typeDraw
    (coordsOf w h) 0 (SingleGrid.mk0 w h true) []
  { grid := st.1, agents := st.2, moved := 0 }

/-- The observable per-tick snapshot: each agent's position and type. -/
def snapshot (m : SchellingModel) : List (Pos × AgentType) :=
  m.agents.map (fun a => (a.pos, a.type))

/-- Run `n` ticks from `m`, collecting each completed tick's snapshot and
relocation count; tick `t` consumes the draw streams `ρ t` and `mv t`.
If a tick raises, the run stops there (the exception is uncaught in the
source). -/
def runTrace (ρ mv : Nat → Nat → Nat) :
    Nat → Nat → SchellingModel → List (List (Pos × AgentType) × Nat)
  | 0, _, _ => []
  | n + 1, t, m =>
    match SchellingModel.stepM m (ρ t) (mv t) with
    | Except.error _ => []
    | Except.ok m' => (snapshot m', m'.moved) :: runTrace ρ mv n (t + 1) m'

/-- Spec-side view for the similarity claim: the occupied cells among the
Moore neighbors of `p` (empty cells excluded). -/
def occupiedNeighbors (m : SchellingModel) (p : Pos) : List Pos :=
  (m.grid.neighborCells p).filter (fun c => (m.grid.occupantAt c).isSome)

/-- Spec-side view: the type of the agent occupying cell `c`, if any. -/
def typeAt (m : SchellingModel) (c : Pos) : Option AgentType :=
  ((m.grid.occupantAt c).bind (fun i => m.agents[i]?)).map
    (fun a => a.type)

/-- Spec-side view: the occupied Moore neighbors of `p` whose agent has
type `t`. -/
def sameTypeNeighbors (m : SchellingModel) (p : Pos) (t : AgentType) :
    List Pos :=
  (occupiedNeighbors m p).filter (fun c => decide (typeAt m c = some t))

/-- The single-occupancy / empty-index invariant of the grid together with
the registry-consistency facts needed to maintain it:
every coordinate is bound to at most one agent (occupancy keys are
distinct), the empty-cell index is duplicate-free and is exactly the set
of in-bounds coordinates with no occupant, every occupancy binding is in
bounds and names a registered agent, and each registered agent's recorded
position is bound to that agent. -/
def WFga (g : SingleGrid) (ags : List SchellingAgent) : Prop :=
  (g.occ.map (fun pr => pr.1)).Nodup ∧
  g.empties.Nodup ∧
  (∀ p : Pos, p ∈ g.empties ↔
     (p ∈ coordsOf g.width g.height ∧ g.occupantAt p = none)) ∧
  (∀ pr ∈ g.occ,
     pr.1 ∈ coordsOf g.width g.height ∧ pr.2 < ags.length) ∧
  (∀ i a, ags[i]? = some a → g.occupantAt a.pos = some i)

/-- The invariant lifted to a whole model state. -/
def WF (m : SchellingModel) : Prop :=
  WFga m.grid m.agents

/-- The model states reachable at observable boundaries: immediately after
construction, after any single agent step that completed normally, and
after any completed tick. -/
inductive Reachable : SchellingModel → Prop where
  | init : ∀ w h density homophily placeDraw typeDraw,
      Reachable (SchellingModel.init w h density homophily placeDraw typeDraw)
  | agentStep : ∀ m i pick m' b, Reachable m →
      SchellingAgent.step m i pick = Except.ok (m', b) → Reachable m'
  | tick : ∀ m ρ mv m', Reachable m →
      SchellingModel.stepM m ρ mv = Except.ok m' → Reachable m'

/-- A placement-draw stream that is constantly `0` (every cell receives an
agent whenever the density is positive). -/
def pdZero : Nat → ℚ := fun _ => 0

/-- An alternating type-draw stream, standing for the successive results
of `np.random.choice`. -/
def tdAlt : Nat → AgentType :=
  fun k => if k % 2 = 0 then AgentType.triangle else AgentType.square

/-- A concrete 4×4 toroidal state: the agent of interest sits at `(1, 1)`
with four occupied neighbors, one of its own type (similarity `1/4`). -/
def M14 : SchellingModel :=
  { grid := { width := 4, height := 4, torus := true,
              occ := [((1,1), 0), ((0,0), 1), ((0,1), 2), ((0,2), 3),
                      ((1,0), 4)],
              empties := [(0,3), (1,2), (1,3), (2,0), (2,1), (2,2), (2,3),
                          (3,0), (3,1), (3,2), (3,3)] },
    agents := [{ pos := (1,1), type := AgentType.triangle,
                 homophily := mkRat 1 2 },
               { pos := (0,0), type := AgentType.triangle,
                 homophily := mkRat 1 2 },
               { pos := (0,1), type := AgentType.square,
                 homophily := mkRat 1 2 },
               { pos := (0,2), type := AgentType.square,
                 homophily := mkRat 1 2 },
               { pos := (1,0), type := AgentType.square,
                 homophily := mkRat 1 2 }],
    moved := 0 }

/-- As `M14`, but three of the four occupied neighbors share the central
agent's type (similarity `3/4`). -/
def M34 : SchellingModel :=
  { grid := { width := 4, height := 4, torus := true,
              occ := [((1,1), 0), ((0,0), 1), ((0,1), 2), ((0,2), 3),
                      ((1,0), 4)],
              empties := [(0,3), (1,2), (1,3), (2,0), (2,1), (2,2), (2,3),
                          (3,0), (3,1), (3,2), (3,3)] },
    agents := [{ pos := (1,1), type := AgentType.triangle,
                 homophily := mkRat 1 2 },
               { pos := (0,0), type := AgentType.triangle,
                 homophily := mkRat 1 2 },
               { pos := (0,1), type := AgentType.triangle,
                 homophily := mkRat 1 2 },
               { pos := (0,2), type := AgentType.triangle,
                 homophily := mkRat 1 2 },
               { pos := (1,0), type := AgentType.square,
                 homophily := mkRat 1 2 }],
    moved := 0 }

/-- A completely full 1×2 toroidal state (density 1: no empty cell) whose
agents are of different types, so each is unhappy at threshold `3/5`. -/
def Mfull : SchellingModel :=
  { grid := { width := 1, height := 2, torus := true,
              occ := [((0,0), 0), ((0,1), 1)], empties := [] },
    agents := [{ pos := (0,0), type := AgentType.triangle,
                 homophily := mkRat 3 5 },
               { pos := (0,1), type := AgentType.square,
                 homophily := mkRat 3 5 }],
    moved := 0 }

/-- A lone agent on a 4×4 toroidal grid: its Moore neighborhood is fully
empty. -/
def M9 : SchellingModel :=
  { grid := { width := 4, height := 4, torus := true,
              occ := [((0,0), 0)],
              empties := [(0,1), (0,2), (0,3), (1,0), (1,1), (1,2), (1,3),
                          (2,0), (2,1), (2,2), (2,3), (3,0), (3,1), (3,2),
                          (3,3)] },
    agents := [{ pos := (0,0), type := AgentType.triangle,
                 homophily := mkRat 9 10 }],
    moved := 0 }

/-- First of two runs constructed with identical parameters: it consumes
the head of the global numpy type-draw stream. -/
def runA : SchellingModel :=
  SchellingModel.init 1 1 1 (mkRat 1 2) pdZero tdAlt

/-- Second run, identical parameters and identical model-RNG stream; the
global numpy stream, however, continues where the first construction left
it (offset by the number of agents the first run created). -/
def runB : SchellingModel :=
  SchellingModel.init 1 1 1 (mkRat 1 2) pdZero
    (fun k => tdAlt (k + runA.agents.length))

/-- Construction at density `2`, outside `[0, 1]`. -/
def MC7 : SchellingModel :=
  SchellingModel.init 2 2 (2 : ℚ) (mkRat 1 2) pdZero tdAlt

/-- Construction at density `0`. -/
def MC7b : SchellingModel :=
  SchellingModel.init 2 2 (0 : ℚ) (mkRat 1 2) pdZero tdAlt

/-- A model constructed with homophily `0`. -/
def M8 : SchellingModel :=
  SchellingModel.init 2 2 1 0 pdZero tdAlt

section GridLemmas

/-- On a nonempty list, `npMean` is the division written in the source. -/
theorem npMean_eq_div (l : List Bool) (h : ¬ l.isEmpty = true) :
    npMean l = some ((l.count true : ℚ) / (l.length : ℚ)) := by
  rw [npMean, if_neg h, Rat.mkRat_eq_divInt, Rat.divInt_eq_div]
  norm_num

/-- Looking up `q` ignores the removal of all bindings at a different key. -/
theorem find?_filter_key_ne (l : List (Pos × Nat)) (old q : Pos) (h : ¬ q = old) :
    (l.filter (fun pr => decide (¬ pr.1 = old))).find? (fun pr => decide (pr.1 = q)) =
      l.find? (fun pr => decide (pr.1 = q)) := by
  induction l with
  | nil => rfl
  | cons hd tl ih =>
    by_cases hko : hd.1 = old
    · have hkq : ¬ hd.1 = q := by
        intro hq
        exact h (hq ▸ hko)
      rw [List.filter_cons_of_neg (by simpa using hko),
        List.find?_cons_of_neg _ (by simpa using hkq)]
      exact ih
    · rw [List.filter_cons_of_pos (by simpa using hko)]
      by_cases hkq : hd.1 = q
      · rw [List.find?_cons_of_pos _ (by simpa using hkq),
          List.find?_cons_of_pos _ (by simpa using hkq)]
      · rw [List.find?_cons_of_neg _ (by simpa using hkq),
          List.find?_cons_of_neg _ (by simpa using hkq)]
        exact ih

theorem occupantAt_placeCell_self (g : SingleGrid) (p : Pos) (i : Nat) :
    (g.placeCell p i).occupantAt p = some i := by
  simp [SingleGrid.placeCell, SingleGrid.occupantAt]

theorem occupantAt_placeCell_ne (g : SingleGrid) (p q : Pos) (i : Nat)
    (h : ¬ q = p) :
    (g.placeCell p i).occupantAt q = g.occupantAt q := by
  simp only [SingleGrid.placeCell, SingleGrid.occupantAt]
  rw [List.find?_cons_of_neg _ (by simpa using fun hq => h hq.symm)]

theorem occupantAt_removeCell_self (g : SingleGrid) (p : Pos) :
    (g.removeCell p).occupantAt p = none := by
  simp only [SingleGrid.removeCell, SingleGrid.occupantAt, Option.map_eq_none']
  rw [List.find?_eq_none]
  intro pr hpr
  have := List.of_mem_filter hpr
  simpa using this

theorem occupantAt_removeCell_ne (g : SingleGrid) (p q : Pos) (h : ¬ q = p) :
    (g.removeCell p).occupantAt q = g.occupantAt q := by
  simp only [SingleGrid.removeCell, SingleGrid.occupantAt]
  rw [find?_filter_key_ne _ _ _ h]

/-- A coordinate with an occupant has a corresponding binding in the map. -/
theorem mem_occ_of_occupantAt (g : SingleGrid) (p : Pos) (i : Nat)
    (h : g.occupantAt p = some i) : (p, i) ∈ g.occ := by
  simp only [SingleGrid.occupantAt, Option.map_eq_some'] at h
  obtain ⟨pr, hfind, hsnd⟩ := h
  have hmem := List.mem_of_find?_eq_some hfind
  have hfst := List.find?_some hfind
  have : pr = (p, i) := by
    cases pr
    simp_all
  exact this ▸ hmem

theorem occupantAt_eq_none_iff (g : SingleGrid) (p : Pos) :
    g.occupantAt p = none ↔ ∀ pr ∈ g.occ, ¬ pr.1 = p := by
  simp only [SingleGrid.occupantAt, Option.map_eq_none', List.find?_eq_none,
    decide_eq_true_eq]

theorem getD_mem_of_lt {α : Type} (l : List α) (n : Nat) (d : α)
    (h : n < l.length) : l.getD n d ∈ l := by
  rw [List.getD_eq_getElem?_getD, List.getElem?_eq_getElem h]
  exact List.getElem_mem h

end GridLemmas

section Preservation

theorem placeCell_width (g : SingleGrid) (p : Pos) (i : Nat) :
    (g.placeCell p i).width = g.width := rfl

theorem placeCell_height (g : SingleGrid) (p : Pos) (i : Nat) :
    (g.placeCell p i).height = g.height := rfl

theorem placeCell_torus (g : SingleGrid) (p : Pos) (i : Nat) :
    (g.placeCell p i).torus = g.torus := rfl

theorem placeCell_occ (g : SingleGrid) (p : Pos) (i : Nat) :
    (g.placeCell p i).occ = (p, i) :: g.occ := rfl

theorem placeCell_empties (g : SingleGrid) (p : Pos) (i : Nat) :
    (g.placeCell p i).empties =
      g.empties.filter (fun q => decide (¬ q = p)) := rfl

theorem removeCell_width (g : SingleGrid) (p : Pos) :
    (g.removeCell p).width = g.width := rfl

theorem removeCell_height (g : SingleGrid) (p : Pos) :
    (g.removeCell p).height = g.height := rfl

theorem removeCell_torus (g : SingleGrid) (p : Pos) :
    (g.removeCell p).torus = g.torus := rfl

theorem removeCell_occ (g : SingleGrid) (p : Pos) :
    (g.removeCell p).occ = g.occ.filter (fun pr => decide (¬ pr.1 = p)) := rfl

theorem removeCell_empties (g : SingleGrid) (p : Pos) :
    (g.removeCell p).empties = p :: g.empties := rfl

/-- A key is in the key image of the occupancy map iff some binding has it. -/
theorem mem_keys_iff (occ : List (Pos × Nat)) (q : Pos) :
    q ∈ occ.map (fun pr => pr.1) ↔ ∃ pr ∈ occ, pr.1 = q := by
  simp [List.mem_map]

/-- Placing a fresh agent on an empty cell preserves the invariant
(the registration step of `__init__`: `schedule.add` then
`position_agent`). -/
theorem WFga_place (g : SingleGrid) (ags : List SchellingAgent)
    (p : Pos) (a : SchellingAgent)
    (hwf : WFga g ags) (hp : p ∈ g.empties) (hpos : a.pos = p) :
    WFga (g.placeCell p ags.length) (ags ++ [a]) := by
  obtain ⟨hkeys, hemp, hcompl, hbound, hcons⟩ := hwf
  have hpc := (hcompl p).mp hp
  obtain ⟨hpco, hpnone⟩ := hpc
  have hknotin : ∀ pr ∈ g.occ, ¬ pr.1 = p := (occupantAt_eq_none_iff g p).mp hpnone
  refine ⟨?_, ?_, ?_, ?_, ?_⟩
  · rw [placeCell_occ, List.map_cons, List.nodup_cons]
    constructor
    · rw [mem_keys_iff]
      rintro ⟨pr, hpr, hfst⟩
      exact hknotin pr hpr hfst
    · exact hkeys
  · rw [placeCell_empties]
    exact hemp.filter _
  · intro q
    rw [placeCell_empties, placeCell_width, placeCell_height, List.mem_filter]
    simp only [decide_eq_true_eq]
    by_cases hq : q = p
    · subst hq
      rw [occupantAt_placeCell_self]
      simp
    · rw [occupantAt_placeCell_ne _ _ _ _ hq]
      constructor
      · rintro ⟨hqe, _⟩
        exact (hcompl q).mp hqe
      · intro hrhs
        exact ⟨(hcompl q).mpr hrhs, hq⟩
  · intro pr hpr
    rw [placeCell_occ, List.mem_cons] at hpr
    rw [placeCell_width, placeCell_height]
    rcases hpr with rfl | hpr
    · refine ⟨hpco, ?_⟩
      simp
    · obtain ⟨h1, h2⟩ := hbound pr hpr
      refine ⟨h1, ?_⟩
      simp only [List.length_append, List.length_cons, List.length_nil]
      omega
  · intro j b hj
    rcases Nat.lt_trichotomy j ags.length with hjlt | hjeq | hjgt
    · rw [List.getElem?_append_left hjlt] at hj
      have hocc := hcons j b hj
      have hbp : ¬ b.pos = p := by
        intro hbp
        rw [hbp, hpnone] at hocc
        exact Option.noConfusion hocc
      rw [occupantAt_placeCell_ne _ _ _ _ hbp]
      exact hocc
    · subst hjeq
      rw [List.getElem?_concat_length] at hj
      have hb : a = b := by
        injection hj with hb
      subst hb
      rw [hpos, occupantAt_placeCell_self]
    · have hlen : (ags ++ [a]).length ≤ j := by
        simp only [List.length_append, List.length_cons, List.length_nil]
        omega
      rw [List.getElem?_eq_none hlen] at hj
      exact Option.noConfusion hj

end Preservation

/-- Relocating a registered agent to an empty cell (mesa `move_to_empty`:
place at the new cell, update the agent's `pos`, then remove the old
binding) preserves the invariant. -/
theorem WFga_move (g : SingleGrid) (ags : List SchellingAgent)
    (i : Nat) (a : SchellingAgent) (newPos : Pos)
    (hwf : WFga g ags) (ha : ags[i]? = some a)
    (hnew : newPos ∈ g.empties) :
    WFga ((g.placeCell newPos i).removeCell a.pos)
      (ags.set i { a with pos := newPos }) := by
  obtain ⟨hkeys, hemp, hcompl, hbound, hcons⟩ := hwf
  have hilt : i < ags.length := by
    by_contra hge
    rw [List.getElem?_eq_none (Nat.le_of_not_lt hge)] at ha
    exact Option.noConfusion ha
  have hocc_a : g.occupantAt a.pos = some i := hcons i a ha
  have hnewc := (hcompl newPos).mp hnew
  obtain ⟨hnewco, hnewnone⟩ := hnewc
  have hknotin : ∀ pr ∈ g.occ, ¬ pr.1 = newPos :=
    (occupantAt_eq_none_iff g newPos).mp hnewnone
  have holdmem : (a.pos, i) ∈ g.occ := mem_occ_of_occupantAt g a.pos i hocc_a
  have holdco : a.pos ∈ coordsOf g.width g.height := (hbound _ holdmem).1
  have holdnotemp : a.pos ∉ g.empties := by
    intro hmem
    have := ((hcompl a.pos).mp hmem).2
    rw [hocc_a] at this
    exact Option.noConfusion this
  have hne : ¬ a.pos = newPos := by
    intro he
    rw [he, hnewnone] at hocc_a
    exact Option.noConfusion hocc_a
  have hne' : ¬ newPos = a.pos := fun he => hne he.symm
  refine ⟨?_, ?_, ?_, ?_, ?_⟩
  · rw [removeCell_occ, placeCell_occ,
      List.filter_cons_of_pos (by simpa using hne')]
    rw [List.map_cons, List.nodup_cons]
    constructor
    · rw [mem_keys_iff]
      rintro ⟨pr, hpr, hfst⟩
      exact hknotin pr (List.mem_of_mem_filter hpr) hfst
    · exact hkeys.sublist (List.Sublist.map _ (List.filter_sublist _))
  · rw [removeCell_empties, placeCell_empties, List.nodup_cons]
    constructor
    · intro hmem
      exact holdnotemp (List.mem_of_mem_filter hmem)
    · exact hemp.filter _
  · intro q
    rw [removeCell_empties, placeCell_empties, removeCell_width,
      removeCell_height, placeCell_width, placeCell_height, List.mem_cons,
      List.mem_filter]
    simp only [decide_eq_true_eq]
    by_cases hqold : q = a.pos
    · subst hqold
      rw [occupantAt_removeCell_self]
      simp [holdco]
    · have hqold' : ¬ a.pos = q := fun he => hqold he.symm
      rw [occupantAt_removeCell_ne _ _ _ hqold]
      by_cases hqnew : q = newPos
      · subst hqnew
        rw [occupantAt_placeCell_self]
        constructor
        · rintro (h | ⟨_, h⟩)
          · exact absurd h hqold
          · exact absurd rfl h
        · rintro ⟨_, h⟩
          exact Option.noConfusion h
      · rw [occupantAt_placeCell_ne _ _ _ _ hqnew]
        constructor
        · rintro (h | ⟨hqe, _⟩)
          · exact absurd h hqold
          · exact (hcompl q).mp hqe
        · intro hrhs
          exact Or.inr ⟨(hcompl q).mpr hrhs, hqnew⟩
  · intro pr hpr
    rw [removeCell_width, removeCell_height, placeCell_width, placeCell_height]
    rw [removeCell_occ, placeCell_occ] at hpr
    have hpr' := List.mem_of_mem_filter hpr
    rw [List.mem_cons] at hpr'
    rw [List.length_set]
    rcases hpr' with rfl | hpr' 
    · exact ⟨hnewco, hilt⟩
    · exact hbound pr hpr'
  · intro j b hj
    by_cases hji : j = i
    · subst hji
      rw [List.getElem?_set_self hilt] at hj
      injection hj with hb
      subst hb
      have hbpos : ({ a with pos := newPos } : SchellingAgent).pos = newPos := rfl
      rw [hbpos, occupantAt_removeCell_ne _ _ _ hne',
        occupantAt_placeCell_self]
    · rw [List.getElem?_set_ne (fun he => hji he.symm)] at hj
      have hocc_b := hcons j b hj
      have hbnew : ¬ b.pos = newPos := by
        intro he
        rw [he, hnewnone] at hocc_b
        exact Option.noConfusion hocc_b
      have hbold : ¬ b.pos = a.pos := by
        intro he
        rw [he, hocc_a] at hocc_b
        injection hocc_b with hij
        exact hji hij.symm
      rw [occupantAt_removeCell_ne _ _ _ hbold,
        occupantAt_placeCell_ne _ _ _ _ hbnew]
      exact hocc_b

section StepEquations

theorem step_of_get_none (m : SchellingModel) (i pick : Nat)
    (h : m.agents[i]? = none) :
    SchellingAgent.step m i pick = Except.ok (m, false) := by
  simp [SchellingAgent.step, h]

theorem step_happy (m : SchellingModel) (i pick : Nat) (a : SchellingAgent)
    (h : m.agents[i]? = some a)
    (hh : nanLt (npMean (simList m a)) a.homophily = false) :
    SchellingAgent.step m i pick = Except.ok (m, false) := by
  simp [SchellingAgent.step, h, hh]

theorem step_unhappy_exhausted (m : SchellingModel) (i pick : Nat)
    (a : SchellingAgent)
    (h : m.agents[i]? = some a)
    (hh : nanLt (npMean (simList m a)) a.homophily = true)
    (he : m.grid.empties = []) :
    SchellingAgent.step m i pick = Except.error GridError.emptyGridExhausted := by
  simp [SchellingAgent.step, h, hh, he]

theorem step_unhappy_move (m : SchellingModel) (i pick : Nat)
    (a : SchellingAgent) (e : Pos) (es : List Pos)
    (h : m.agents[i]? = some a)
    (hh : nanLt (npMean (simList m a)) a.homophily = true)
    (he : m.grid.empties = e :: es) :
    SchellingAgent.step m i pick =
      Except.ok
        ({ grid :=
             (m.grid.placeCell ((e :: es).getD (pick % (e :: es).length) e)
                 i).removeCell a.pos,
           agents := m.agents.set i
             { a with pos := (e :: es).getD (pick % (e :: es).length) e },
           moved := m.moved + 1 }, true) := by
  simp [SchellingAgent.step, h, hh, he]

end StepEquations

/-- One agent step that completes normally preserves the invariant. -/
theorem WF_step (m : SchellingModel) (i pick : Nat) (m' : SchellingModel)
    (b : Bool) (hwf : WF m)
    (hstep : SchellingAgent.step m i pick = Except.ok (m', b)) : WF m' := by
  cases hag : m.agents[i]? with
  | none =>
    rw [step_of_get_none m i pick hag] at hstep
    injection hstep with h
    injection h with h1 h2
    exact h1 ▸ hwf
  | some a =>
    cases hh : nanLt (npMean (simList m a)) a.homophily with
    | false =>
      rw [step_happy m i pick a hag hh] at hstep
      injection hstep with h
      injection h with h1 h2
      exact h1 ▸ hwf
    | true =>
      cases he : m.grid.empties with
      | nil =>
        rw [step_unhappy_exhausted m i pick a hag hh he] at hstep
        exact Except.noConfusion hstep
      | cons e es =>
        rw [step_unhappy_move m i pick a e es hag hh he] at hstep
        injection hstep with h
        injection h with h1 h2
        have hmem : (e :: es).getD (pick % (e :: es).length) e ∈
            m.grid.empties := by
          rw [he]
          exact getD_mem_of_lt _ _ _ (Nat.mod_lt _ (by simp))
        have := WFga_move m.grid m.agents i a
          ((e :: es).getD (pick % (e :: es).length) e) hwf hag hmem
        rw [← h1]
        exact this

/-- A normally completing agent step does not change the number of
registered agents. -/
theorem step_length (m : SchellingModel) (i pick : Nat) (m' : SchellingModel)
    (b : Bool)
    (hstep : SchellingAgent.step m i pick = Except.ok (m', b)) :
    m'.agents.length = m.agents.length := by
  cases hag : m.agents[i]? with
  | none =>
    rw [step_of_get_none m i pick hag] at hstep
    injection hstep with h
    injection h with h1 h2
    rw [← h1]
  | some a =>
    cases hh : nanLt (npMean (simList m a)) a.homophily with
    | false =>
      rw [step_happy m i pick a hag hh] at hstep
      injection hstep with h
      injection h with h1 h2
      rw [← h1]
    | true =>
      cases he : m.grid.empties with
      | nil =>
        rw [step_unhappy_exhausted m i pick a hag hh he] at hstep
        exact Except.noConfusion hstep
      | cons e es =>
        rw [step_unhappy_move m i pick a e es hag hh he] at hstep
        injection hstep with h
        injection h with h1 h2
        rw [← h1]
        exact List.length_set ..

/-- The scheduler loop preserves the invariant. -/
theorem WF_tickGo (mv : Nat → Nat) (order : List Nat) (k : Nat)
    (m m' : SchellingModel) (hwf : WF m)
    (h : tickGo mv order k m = Except.ok m') : WF m' := by
  induction order generalizing k m with
  | nil =>
    unfold tickGo at h
    injection h with h1
    exact h1 ▸ hwf
  | cons i rest ih =>
    unfold tickGo at h
    cases hstep : SchellingAgent.step m i (mv k) with
    | error e => rw [hstep] at h; exact Except.noConfusion h
    | ok r =>
      rw [hstep] at h
      exact ih _ _ (WF_step m i (mv k) r.1 r.2 hwf (by rw [hstep])) h

/-- The scheduler loop preserves the number of registered agents. -/
theorem tickGo_length (mv : Nat → Nat) (order : List Nat) (k : Nat)
    (m m' : SchellingModel)
    (h : tickGo mv order k m = Except.ok m') :
    m'.agents.length = m.agents.length := by
  induction order generalizing k m with
  | nil =>
    unfold tickGo at h
    injection h with h1
    rw [h1]
  | cons i rest ih =>
    unfold tickGo at h
    cases hstep : SchellingAgent.step m i (mv k) with
    | error e => rw [hstep] at h; exact Except.noConfusion h
    | ok r =>
      rw [hstep] at h
      rw [ih _ _ h]
      exact step_length m i (mv k) r.1 r.2 (by rw [hstep])

section InitLemmas

/-- Membership in the coordinate enumeration is exactly being in bounds. -/
theorem mem_coordsOf (w h : Nat) (p : Pos) :
    p ∈ coordsOf w h ↔ p.1 < w ∧ p.2 < h := by
  cases p with
  | mk x y =>
    simp only [coordsOf, List.mem_flatMap, List.mem_map, List.mem_range]
    constructor
    · rintro ⟨a, ha, b, hb, heq⟩
      injection heq with h1 h2
      subst h1
      subst h2
      exact ⟨ha, hb⟩
    · rintro ⟨hx, hy⟩
      exact ⟨x, hx, y, hy, rfl⟩

theorem coordsOf_nodup (w h : Nat) : (coordsOf w h).Nodup := by
  rw [coordsOf, List.nodup_flatMap]
  constructor
  · intro x _
    exact (List.nodup_range h).map (fun y y' hy => by injection hy)
  · refine (List.nodup_range w).pairwise_of_forall_ne ?_
    intro x x' _ _ hne
    rw [Function.onFun, List.disjoint_left]
    rintro ⟨a, b⟩ hmem hmem'
    simp only [List.mem_map, List.mem_range] at hmem hmem'
    obtain ⟨y, _, hy⟩ := hmem
    obtain ⟨y', _, hy'⟩ := hmem'
    injection hy with h1 h2
    injection hy' with h1' h2'
    exact hne (h1.trans h1'.symm)

/-- The fresh grid with an empty registry satisfies the invariant. -/
theorem WFga_mk0 (w h : Nat) (t : Bool) : WFga (SingleGrid.mk0 w h t) [] := by
  refine ⟨?_, ?_, ?_, ?_, ?_⟩
  · simp [SingleGrid.mk0]
  · exact coordsOf_nodup w h
  · intro p
    simp [SingleGrid.mk0, SingleGrid.occupantAt]
  · intro pr hpr
    simp [SingleGrid.mk0] at hpr
  · intro i a ha
    simp at ha

/-- The population loop of `__init__` preserves the invariant, provided
the cells still to visit are all empty and pairwise distinct. -/
theorem WFga_initLoop (density homophily : ℚ) (placeDraw : Nat → ℚ)
    (typeDraw : Nat → AgentType) :
    ∀ (cells : List Pos) (k : Nat) (g : SingleGrid)
      (ags : List SchellingAgent),
      WFga g ags → (∀ p ∈ cells, p ∈ g.empties) → cells.Nodup →
      WFga (initLoop density homophily placeDraw typeDraw cells k g ags).1
        (initLoop density homophily placeDraw typeDraw cells k g ags).2 := by
  intro cells
  induction cells with
  | nil =>
    intro k g ags hwf _ _
    exact hwf
  | cons p rest ih =>
    intro k g ags hwf hsub hnd
    rw [List.nodup_cons] at hnd
    rw [initLoop]
    split
    · apply ih
      · exact WFga_place g ags p _ hwf (hsub p (List.mem_cons_self p rest)) rfl
      · intro q hq
        rw [placeCell_empties, List.mem_filter]
        refine ⟨hsub q (List.mem_cons_of_mem p hq), ?_⟩
        simp only [decide_eq_true_eq]
        intro hqp
        exact hnd.1 (hqp ▸ hq)
      · exact hnd.2
    · exact ih (k + 1) g ags hwf
        (fun q hq => hsub q (List.mem_cons_of_mem p hq)) hnd.2

/-- The invariant holds immediately after construction. -/
theorem WF_init (w h : Nat) (density homophily : ℚ) (placeDraw : Nat → ℚ)
    (typeDraw : Nat → AgentType) :
    WF (SchellingModel.init w h density homophily placeDraw typeDraw) := by
  unfold WF SchellingModel.init
  exact WFga_initLoop density homophily placeDraw typeDraw (coordsOf w h) 0
    (SingleGrid.mk0 w h true) [] (WFga_mk0 w h true)
    (fun p hp => hp) (coordsOf_nodup w h)

end InitLemmas

/-- One tick (`SchellingModel.step`) that completes normally preserves
the invariant. -/
theorem WF_stepM (m : SchellingModel) (ρ mv : Nat → Nat)
    (m' : SchellingModel) (hwf : WF m)
    (h : SchellingModel.stepM m ρ mv = Except.ok m') : WF m' := by
  unfold SchellingModel.stepM at h
  exact WF_tickGo mv _ 0 { m with moved := 0 } m' hwf h

/-- Every state reachable at an observable boundary satisfies the
invariant. -/
theorem WF_reachable (m : SchellingModel) (h : Reachable m) : WF m := by
  induction h with
  | init w h density homophily placeDraw typeDraw =>
    exact WF_init w h density homophily placeDraw typeDraw
  | agentStep m i pick m' b _ hstep ih =>
    exact WF_step m i pick m' b ih hstep
  | tick m ρ mv m' _ hstep ih =>
    exact WF_stepM m ρ mv m' ih hstep

section ShuffleLemmas

theorem getD_cons_eraseIdx_perm {α : Type} :
    ∀ (l : List α) (j : Nat) (d : α), j < l.length →
      (l.getD j d :: l.eraseIdx j).Perm l := by
  intro l
  induction l with
  | nil =>
    intro j d hj
    exact absurd hj (by simp)
  | cons x xs ih =>
    intro j d hj
    cases j with
    | zero =>
      simp only [List.getD_eq_getElem?_getD, List.getElem?_cons_zero,
        Option.getD_some, List.eraseIdx_cons_zero]
      exact List.Perm.refl _
    | succ j =>
      have hj' : j < xs.length := by
        simpa using hj
      have hgd : (x :: xs).getD (j + 1) d = xs.getD j d := by
        simp [List.getD_eq_getElem?_getD]
      rw [hgd, List.eraseIdx_cons_succ]
      exact (List.Perm.swap x (xs.getD j d) _).trans
        ((ih j d hj').cons x)

theorem shuffleGo_perm {α : Type} (ρ : Nat → Nat) :
    ∀ (fuel : Nat) (l : List α) (k : Nat), (shuffleGo ρ fuel k l).Perm l := by
  intro fuel
  induction fuel with
  | zero =>
    intro l k
    exact List.Perm.refl _
  | succ n ih =>
    intro l k
    cases l with
    | nil => exact List.Perm.refl _
    | cons e es =>
      rw [shuffleGo]
      have hjlt : ρ k % (e :: es).length < (e :: es).length :=
        Nat.mod_lt _ (by simp)
      exact ((ih _ (k + 1)).cons _).trans
        (getD_cons_eraseIdx_perm (e :: es) (ρ k % (e :: es).length) e hjlt)

/-- The scheduler's shuffle produces a permutation of its input. -/
theorem shuffleL_perm {α : Type} (ρ : Nat → Nat) (k : Nat) (l : List α) :
    (shuffleL ρ k l).Perm l :=
  shuffleGo_perm ρ l.length l k

end ShuffleLemmas

section SimilarityLemmas

/-- Counting through `neighbor_iter`: over any coordinate list, the agents
produced by occupant lookup are in bijection with the occupied cells, and
the same-type booleans count the occupied cells holding type `t`. -/
theorem occNeighbor_counts (m : SchellingModel) (t : AgentType)
    (hval : ∀ pr ∈ m.grid.occ, pr.2 < m.agents.length) :
    ∀ coords : List Pos,
      ((coords.filterMap
          (fun c => (m.grid.occupantAt c).bind (fun i => m.agents[i]?))).map
            (fun o => t == o.type)).count true =
        ((coords.filter (fun c => (m.grid.occupantAt c).isSome)).filter
          (fun c => decide (typeAt m c = some t))).length ∧
      (coords.filterMap
          (fun c => (m.grid.occupantAt c).bind (fun i => m.agents[i]?))).length =
        (coords.filter (fun c => (m.grid.occupantAt c).isSome)).length := by
  intro coords
  induction coords with
  | nil => simp
  | cons c cs ih =>
    cases hc : m.grid.occupantAt c with
    | none =>
      rw [List.filterMap_cons, List.filter_cons]
      simp only [hc, Option.none_bind, Option.isSome_none, Bool.false_eq_true,
        if_false]
      exact ih
    | some j =>
      have hjlt : j < m.agents.length :=
        hval (c, j) (mem_occ_of_occupantAt m.grid c j hc)
      have hb : m.agents[j]? = some m.agents[j] :=
        List.getElem?_eq_getElem hjlt
      have hty : typeAt m c = some m.agents[j].type := by
        rw [typeAt, hc, Option.some_bind, hb, Option.map_some']
      rw [List.filterMap_cons, List.filter_cons]
      simp only [hc, Option.some_bind, hb, Option.isSome_some, if_true,
        List.map_cons, List.filter_cons, hty, List.count_cons]
      by_cases htt : m.agents[j].type = t
      · constructor
        · rw [ih.1]
          simp [htt]
        · simp [ih.2]
      · have hbt : ¬ some m.agents[j].type = some t := by
          intro he
          injection he with he'
          exact htt he'
        constructor
        · rw [ih.1]
          have hne : ¬ t = m.agents[j].type :=
            fun he => htt he.symm
          simp [hbt, hne]
        · simp [ih.2]

end SimilarityLemmas

section WrapLemmas

open SingleGrid

theorem wrap1_zero (n x : Nat) (hx : x < n) : wrap1 n x 0 = x := by
  unfold wrap1
  rw [Int.add_zero, Int.emod_eq_of_lt (by exact_mod_cast Nat.zero_le x)
    (by exact_mod_cast hx)]
  omega

theorem wrap1_one (n x : Nat) (hx : x < n) :
    wrap1 n x 1 = if x + 1 = n then 0 else x + 1 := by
  unfold wrap1
  by_cases h : x + 1 = n
  · have hcast : (x : Int) + 1 = (n : Int) := by exact_mod_cast h
    rw [hcast, Int.emod_self, if_pos h]
    rfl
  · have hlt : (x : Int) + 1 < (n : Int) := by
      have : x + 1 < n := by omega
      exact_mod_cast this
    rw [Int.emod_eq_of_lt (by omega) hlt, if_neg h]
    omega

theorem wrap1_neg_one (n x : Nat) (hn : 1 ≤ n) (hx : x < n) :
    wrap1 n x (-1) = if x = 0 then n - 1 else x - 1 := by
  unfold wrap1
  by_cases h : x = 0
  · subst h
    have hrw : ((0 : Nat) : Int) + (-1) = ((n : Int) - 1) + (n : Int) * (-1) := by
      push_cast
      ring
    rw [hrw, Int.add_mul_emod_self_left,
      Int.emod_eq_of_lt (by omega) (by omega), if_pos rfl]
    omega
  · have hrw : (x : Int) + (-1) = (x : Int) - 1 := by ring
    rw [hrw, Int.emod_eq_of_lt (by omega) (by omega), if_neg h]
    omega

theorem wrap1_pairwise (n x : Nat) (hn : 3 ≤ n) (hx : x < n) :
    wrap1 n x (-1) ≠ wrap1 n x 0 ∧ wrap1 n x 0 ≠ wrap1 n x 1 ∧
      wrap1 n x (-1) ≠ wrap1 n x 1 := by
  rw [wrap1_zero n x hx, wrap1_one n x hx, wrap1_neg_one n x (by omega) hx]
  split_ifs <;> omega

theorem wrap1_inj (n x : Nat) (hn : 3 ≤ n) (hx : x < n) (d d' : Int)
    (hd : d = -1 ∨ d = 0 ∨ d = 1) (hd' : d' = -1 ∨ d' = 0 ∨ d' = 1)
    (h : wrap1 n x d = wrap1 n x d') : d = d' := by
  obtain ⟨h1, h2, h3⟩ := wrap1_pairwise n x hn hx
  rcases hd with rfl | rfl | rfl <;> rcases hd' with rfl | rfl | rfl
  · rfl
  · exact absurd h h1
  · exact absurd h h3
  · exact absurd h.symm h1
  · rfl
  · exact absurd h h2
  · exact absurd h.symm h3
  · exact absurd h.symm h2
  · rfl

theorem mooreOffsets_components :
    ∀ d ∈ mooreOffsets, (d.1 = -1 ∨ d.1 = 0 ∨ d.1 = 1) ∧
      (d.2 = -1 ∨ d.2 = 0 ∨ d.2 = 1) := by
  decide

/-- On a toroidal grid of width and height at least 3, the Moore
neighborhood of any in-bounds cell consists of exactly eight distinct
coordinates. -/
theorem neighborCells_torus_eight (g : SingleGrid) (p : Pos)
    (ht : g.torus = true) (hw : 3 ≤ g.width) (hh : 3 ≤ g.height)
    (hx : p.1 < g.width) (hy : p.2 < g.height) :
    (g.neighborCells p).length = 8 ∧ (g.neighborCells p).Nodup := by
  rw [SingleGrid.neighborCells, ht]
  simp only [if_true]
  constructor
  · simp [mooreOffsets]
  · refine List.Nodup.map_on ?_ (by decide)
    intro d hd d' hd' heq
    obtain ⟨hd1, hd2⟩ := mooreOffsets_components d hd
    obtain ⟨hd1', hd2'⟩ := mooreOffsets_components d' hd'
    injection heq with he1 he2
    have hfst : d.1 = d'.1 := wrap1_inj g.width p.1 hw hx d.1 d'.1 hd1 hd1' he1
    have hsnd : d.2 = d'.2 := wrap1_inj g.height p.2 hh hy d.2 d'.2 hd2 hd2' he2
    cases d
    cases d'
    simp_all

end WrapLemmas

section InitFields

/-- The population loop never touches the grid's dimensions or wraparound
flag. -/
theorem initLoop_grid_fields (density homophily : ℚ) (placeDraw : Nat → ℚ)
    (typeDraw : Nat → AgentType) :
    ∀ (cells : List Pos) (k : Nat) (g : SingleGrid)
      (ags : List SchellingAgent),
      (initLoop density homophily placeDraw typeDraw cells k g ags).1.torus =
          g.torus ∧
        (initLoop density homophily placeDraw typeDraw cells k g ags).1.width =
          g.width ∧
        (initLoop density homophily placeDraw typeDraw cells k g ags).1.height =
          g.height := by
  intro cells
  induction cells with
  | nil =>
    intro k g ags
    exact ⟨rfl, rfl, rfl⟩
  | cons p rest ih =>
    intro k g ags
    rw [initLoop]
    split
    · exact ih (k + 1) (g.placeCell p ags.length) _
    · exact ih (k + 1) g ags

/-- Every agent created by the population loop carries the homophily
parameter passed to the constructor. -/
theorem initLoop_homophily (density homophily : ℚ) (placeDraw : Nat → ℚ)
    (typeDraw : Nat → AgentType) :
    ∀ (cells : List Pos) (k : Nat) (g : SingleGrid)
      (ags : List SchellingAgent),
      (∀ a ∈ ags, a.homophily = homophily) →
      ∀ a ∈ (initLoop density homophily placeDraw typeDraw cells k g ags).2,
        a.homophily = homophily := by
  intro cells
  induction cells with
  | nil =>
    intro k g ags hags
    exact hags
  | cons p rest ih =>
    intro k g ags hags
    rw [initLoop]
    split
    · apply ih
      intro a ha
      rw [List.mem_append] at ha
      rcases ha with ha | ha
      · exact hags a ha
      · rw [List.mem_singleton] at ha
        rw [ha]
    · exact ih (k + 1) g ags hags

/-- When every draw is below the density, the loop creates one agent per
cell. -/
theorem initLoop_length_all (density homophily : ℚ) (placeDraw : Nat → ℚ)
    (typeDraw : Nat → AgentType)
    (hall : ∀ j, placeDraw j < density) :
    ∀ (cells : List Pos) (k : Nat) (g : SingleGrid)
      (ags : List SchellingAgent),
      (initLoop density homophily placeDraw typeDraw cells k g ags).2.length =
        ags.length + cells.length := by
  intro cells
  induction cells with
  | nil =>
    intro k g ags
    simp [initLoop]
  | cons p rest ih =>
    intro k g ags
    rw [initLoop, if_pos (hall k), ih]
    simp
    omega

/-- When no draw is below the density, the loop creates no agent. -/
theorem initLoop_length_none (density homophily : ℚ) (placeDraw : Nat → ℚ)
    (typeDraw : Nat → AgentType)
    (hnone : ∀ j, ¬ placeDraw j < density) :
    ∀ (cells : List Pos) (k : Nat) (g : SingleGrid)
      (ags : List SchellingAgent),
      (initLoop density homophily placeDraw typeDraw cells k g ags).2.length =
        ags.length := by
  intro cells
  induction cells with
  | nil =>
    intro k g ags
    simp [initLoop]
  | cons p rest ih =>
    intro k g ags
    rw [initLoop, if_neg (hnone k), ih]

theorem coordsOf_length (w h : Nat) : (coordsOf w h).length = w * h := by
  induction w with
  | zero => simp [coordsOf]
  | succ n ih =>
    rw [coordsOf, List.range_succ, List.flatMap_append] at *
    simp only [List.length_append, ih, List.flatMap_cons, List.flatMap_nil,
      List.append_nil, List.length_map, List.length_range]
    ring

end InitFields

section HappyLemmas

/-- The mean of a boolean list is never negative. -/
theorem npMean_nonneg (l : List Bool) (s : ℚ) (h : npMean l = some s) :
    0 ≤ s := by
  rw [npMean] at h
  split at h
  · exact Option.noConfusion h
  · injection h with h'
    rw [← h']
    exact Rat.mkRat_nonneg (Int.natCast_nonneg _) _

/-- With threshold `0`, the source comparison is always `False`: a NaN
compares false and a mean of booleans is nonnegative. -/
theorem nanLt_zero (x : Option ℚ) (hx : ∀ s, x = some s → 0 ≤ s) :
    nanLt x 0 = false := by
  cases x with
  | none => rfl
  | some s =>
    rw [nanLt, decide_eq_false_iff_not]
    exact not_lt.mpr (hx s rfl)

/-- An agent whose homophily is `0` never acts. -/
theorem step_of_homophily_zero (m : SchellingModel) (i pick : Nat)
    (hh0 : ∀ a ∈ m.agents, a.homophily = 0) :
    SchellingAgent.step m i pick = Except.ok (m, false) := by
  cases hag : m.agents[i]? with
  | none => exact step_of_get_none m i pick hag
  | some a =>
    have hmem : a ∈ m.agents := by
      have := List.getElem?_eq_some_iff.mp hag
      obtain ⟨hlt, hget⟩ := this
      rw [← hget]
      exact List.getElem_mem hlt
    have h0 : a.homophily = 0 := hh0 a hmem
    refine step_happy m i pick a hag ?_
    rw [h0]
    exact nanLt_zero _ (fun s hs => npMean_nonneg _ s hs)

/-- A tick over agents whose homophily is all `0` changes nothing. -/
theorem tickGo_of_homophily_zero (mv : Nat → Nat) :
    ∀ (order : List Nat) (k : Nat) (m : SchellingModel),
      (∀ a ∈ m.agents, a.homophily = 0) →
      tickGo mv order k m = Except.ok m := by
  intro order
  induction order with
  | nil =>
    intro k m _
    rfl
  | cons i rest ih =>
    intro k m hh0
    rw [tickGo, step_of_homophily_zero m i (mv k) hh0]
    exact ih k m hh0

end HappyLemmas

/-- C1: an activated agent with a defined similarity fraction `s` (at
least one occupied neighbor) and an available empty cell relocates — the
grid moves it to a cell taken from the empty-cell index — if and only if
`s` is strictly below its homophily threshold; when `s` is at or above
the threshold, its step returns the state unchanged, performing no side
effect.  (Instantiated by the witness at similarity `1/4` versus
threshold `1/2`, which relocates, and `3/4` versus `1/2`, which does
not.) -/
theorem C1_relocate_iff (m : SchellingModel) (i pick : Nat)
    (a : SchellingAgent) (s : ℚ)
    (ha : m.agents[i]? = some a)
    (hs : npMean (simList m a) = some s)
    (hne : m.grid.empties ≠ []) :
    ((∃ m', SchellingAgent.step m i pick = Except.ok (m', true)) ↔
        s < a.homophily) ∧
      (a.homophily ≤ s →
        SchellingAgent.step m i pick = Except.ok (m, false)) ∧
      (s < a.homophily →
        ∃ m' q, SchellingAgent.step m i pick = Except.ok (m', true) ∧
          q ∈ m.grid.empties ∧ m'.agents[i]? = some { a with pos := q }) := by
  have hilt : i < m.agents.length := by
    by_contra hge
    rw [List.getElem?_eq_none (Nat.le_of_not_lt hge)] at ha
    exact Option.noConfusion ha
  cases he : m.grid.empties with
  | nil => exact absurd he hne
  | cons e es =>
    by_cases hlt : s < a.homophily
    · have hn : nanLt (npMean (simList m a)) a.homophily = true := by
        rw [hs, nanLt]
        exact decide_eq_true hlt
      have hstep := step_unhappy_move m i pick a e es ha hn he
      have hqmem : (e :: es).getD (pick % (e :: es).length) e ∈ e :: es :=
        getD_mem_of_lt _ _ _ (Nat.mod_lt _ (by simp))
      refine ⟨⟨fun _ => hlt, fun _ => ⟨_, hstep⟩⟩, fun hge => absurd hlt
        (not_lt.mpr hge), fun _ => ?_⟩
      refine ⟨_, (e :: es).getD (pick % (e :: es).length) e, hstep, hqmem, ?_⟩
      rw [List.getElem?_set_self hilt]
    · have hn : nanLt (npMean (simList m a)) a.homophily = false := by
        rw [hs, nanLt]
        exact decide_eq_false hlt
      have hstep := step_happy m i pick a ha hn
      refine ⟨⟨?_, fun hlt' => absurd hlt' hlt⟩,
        fun _ => hstep, fun hlt' => absurd hlt' hlt⟩
      rintro ⟨m', hm'⟩
      rw [hstep] at hm'
      injection hm' with h1
      injection h1 with h2 h3
      exact Bool.noConfusion h3

/-- Witness for C1: in `M14` the agent at `(1, 1)` has similarity `1/4 <
1/2` and relocates to an empty cell, while in `M34` it has similarity
`3/4 ≥ 1/2` and its step leaves the state untouched. -/
theorem C1_relocate_iff_witness :
    (∃ m' q, SchellingAgent.step M14 0 0 = Except.ok (m', true) ∧
        q ∈ M14.grid.empties ∧
        m'.agents[0]? = some { pos := q, type := AgentType.triangle,
                               homophily := mkRat 1 2 }) ∧
      SchellingAgent.step M34 0 0 = Except.ok (M34, false) := by
  constructor
  · exact (C1_relocate_iff M14 0 0
      { pos := (1,1), type := AgentType.triangle, homophily := mkRat 1 2 }
      (mkRat 1 4) (by decide) (by decide) (by decide)).2.2 (by decide)
  · exact (C1_relocate_iff M34 0 0
      { pos := (1,1), type := AgentType.triangle, homophily := mkRat 1 2 }
      (mkRat 3 4) (by decide) (by decide) (by decide)).2.1 (by decide)

/-- C2: for an agent with at least one occupied Moore neighbor, the
similarity fraction its step computes (`np.mean` of the same-type
booleans over `neighbor_iter`) equals the number of occupied neighbor
cells holding its own type divided by the total number of occupied
neighbor cells, with the neighborhood filtered through the
toroidal/bounded policy and empty cells excluded from both counts.  The
hypothesis `hval` (every occupancy binding names a registered agent)
holds in every reachable state by `WF_reachable`. -/
theorem C2_similarity_fraction (m : SchellingModel) (a : SchellingAgent)
    (hval : ∀ pr ∈ m.grid.occ, pr.2 < m.agents.length)
    (hocc : occupiedNeighbors m a.pos ≠ []) :
    npMean (simList m a) =
      some (((sameTypeNeighbors m a.pos a.type).length : ℚ) /
        ((occupiedNeighbors m a.pos).length : ℚ)) := by
  have hc := occNeighbor_counts m a.type hval (m.grid.neighborCells a.pos)
  have hsim : simList m a =
      ((m.grid.neighborCells a.pos).filterMap
        (fun c => (m.grid.occupantAt c).bind (fun i => m.agents[i]?))).map
          (fun o => a.type == o.type) := rfl
  have hlen : (simList m a).length = (occupiedNeighbors m a.pos).length := by
    rw [hsim, List.length_map, hc.2]
    rfl
  have hcount : (simList m a).count true =
      (sameTypeNeighbors m a.pos a.type).length := by
    rw [hsim, hc.1]
    rfl
  have hne : ¬ (simList m a).isEmpty = true := by
    rw [List.isEmpty_iff_length_eq_zero, hlen]
    intro h0
    exact hocc (List.length_eq_zero.mp h0)
  rw [npMean_eq_div _ hne, hcount, hlen]

/-- Witness for C2: in `M14` the agent at `(1, 1)` has 4 occupied
neighbors of which 1 shares its type, and its step computes exactly that
fraction. -/
theorem C2_similarity_fraction_witness :
    npMean (simList M14 { pos := (1,1), type := AgentType.triangle,
                          homophily := mkRat 1 2 }) =
      some (((sameTypeNeighbors M14 (1,1) AgentType.triangle).length : ℚ) /
        ((occupiedNeighbors M14 (1,1)).length : ℚ)) :=
  C2_similarity_fraction M14
    { pos := (1,1), type := AgentType.triangle, homophily := mkRat 1 2 }
    (by decide) (by decide)

/-- C3: in every state reachable at an observable boundary (after
construction, after any completed agent step — which includes every
place/move the grid performs — and after any completed tick), each grid
coordinate is bound to at most one agent (the occupancy keys are
pairwise distinct) and the empty-cell index holds exactly the in-bounds
coordinates with no occupant, i.e. the set complement of the occupied
coordinates. -/
theorem C3_occupancy_invariant (m : SchellingModel) (h : Reachable m) :
    (m.grid.occ.map (fun pr => pr.1)).Nodup ∧
      ∀ p : Pos, p ∈ m.grid.empties ↔
        (p ∈ coordsOf m.grid.width m.grid.height ∧
          m.grid.occupantAt p = none) := by
  have hwf := WF_reachable m h
  exact ⟨hwf.1, hwf.2.2.1⟩

/-- Witness for C3: the invariant instantiated at a freshly constructed
2×2 model, and its complement clause at the coordinate `(0, 0)`. -/
theorem C3_occupancy_invariant_witness :
    (M8.grid.occ.map (fun pr => pr.1)).Nodup ∧
      ((0, 0) ∈ M8.grid.empties ↔
        ((0, 0) ∈ coordsOf M8.grid.width M8.grid.height ∧
          M8.grid.occupantAt (0, 0) = none)) := by
  have h := C3_occupancy_invariant M8
    (Reachable.init 2 2 1 0 pdZero tdAlt)
  exact ⟨h.1, h.2 (0, 0)⟩

/-- C4 (amended): a run's full trace of per-tick snapshots and relocation
counts is determined by the configuration together with all its random
draw streams — the model-RNG placement draws, the global numpy type
draws, and the per-tick shuffle and relocation draws.  Two runs agree
whenever all of these coincide. -/
theorem C4_trace_determinism (w h : Nat) (density homophily : ℚ)
    (pd1 pd2 : Nat → ℚ) (td1 td2 : Nat → AgentType)
    (ρ1 ρ2 mv1 mv2 : Nat → Nat → Nat) (n : Nat)
    (hpd : pd1 = pd2) (htd : td1 = td2) (hρ : ρ1 = ρ2) (hmv : mv1 = mv2) :
    runTrace ρ1 mv1 n 0
        (SchellingModel.init w h density homophily pd1 td1) =
      runTrace ρ2 mv2 n 0
        (SchellingModel.init w h density homophily pd2 td2) := by
  subst hpd
  subst htd
  subst hρ
  subst hmv
  rfl

/-- Witness for C4 (amended): two runs with equal parameters and equal
draw streams produce the same one-tick trace. -/
theorem C4_trace_determinism_witness :
    runTrace (fun _ _ => 0) (fun _ _ => 0) 1 0
        (SchellingModel.init 1 1 1 (mkRat 1 2) pdZero tdAlt) =
      runTrace (fun _ _ => 0) (fun _ _ => 0) 1 0
        (SchellingModel.init 1 1 1 (mkRat 1 2) pdZero tdAlt) :=
  C4_trace_determinism 1 1 1 (mkRat 1 2) pdZero pdZero tdAlt tdAlt
    (fun _ _ => 0) (fun _ _ => 0) (fun _ _ => 0) (fun _ _ => 0) 1
    rfl rfl rfl rfl

/-- Counterexample to C4 as stated: `runA` and `runB` are constructed
with identical configuration parameters and the identical model-RNG
stream (the counterpart of an equal seed), but the agent types come from
the global numpy RNG, whose state persists across constructions — `runB`
continues the stream where `runA` left it — so the two traces differ
already in their first snapshot. -/
theorem C4_counterexample :
    runTrace (fun _ _ => 0) (fun _ _ => 0) 1 0 runA ≠
      runTrace (fun _ _ => 0) (fun _ _ => 0) 1 0 runB := by
  decide

/-- C5 (amended): when an unhappy agent requests relocation and no empty
cell exists, the grid's error is not handled anywhere in the notebook —
the agent's step returns the raw `EmptyGridExhausted` error, and the
scheduler loop propagates it, aborting the tick at that agent; no
"failed relocation" count exists anywhere in the code, and the remaining
agents of the permutation are not activated. -/
theorem C5_exhaustion_uncaught :
    (∀ (m : SchellingModel) (i pick : Nat) (a : SchellingAgent),
        m.agents[i]? = some a →
        nanLt (npMean (simList m a)) a.homophily = true →
        m.grid.empties = [] →
        SchellingAgent.step m i pick =
          Except.error GridError.emptyGridExhausted) ∧
      (∀ (mv : Nat → Nat) (i : Nat) (rest : List Nat) (k : Nat)
          (m : SchellingModel) (e : GridError),
        SchellingAgent.step m i (mv k) = Except.error e →
        tickGo mv (i :: rest) k m = Except.error e) := by
  constructor
  · intro m i pick a ha hu he
    exact step_unhappy_exhausted m i pick a ha hu he
  · intro mv i rest k m e hstep
    rw [tickGo, hstep]

/-- Witness for C5 (amended): on the full grid `Mfull` the unhappy agent
`0`'s step raises, and the tick aborts with that error before agent `1`
is activated. -/
theorem C5_exhaustion_uncaught_witness :
    SchellingAgent.step Mfull 0 0 =
        Except.error GridError.emptyGridExhausted ∧
      tickGo (fun _ => 0) [0, 1] 0 Mfull =
        Except.error GridError.emptyGridExhausted := by
  constructor
  · exact C5_exhaustion_uncaught.1 Mfull 0 0
      { pos := (0,0), type := AgentType.triangle, homophily := mkRat 3 5 }
      (by decide) (by decide) (by decide)
  · exact C5_exhaustion_uncaught.2 (fun _ => 0) 0 [1] 0 Mfull
      GridError.emptyGridExhausted
      (C5_exhaustion_uncaught.1 Mfull 0 0
        { pos := (0,0), type := AgentType.triangle, homophily := mkRat 3 5 }
        (by decide) (by decide) (by decide))

/-- Counterexample to C5 as stated: with no empty cell (`Mfull`, density
1), the unhappy agent's relocation attempt is not recovered — the whole
tick evaluates to the uncaught `EmptyGridExhausted` error instead of
completing with a recorded failed-relocation count. -/
theorem C5_counterexample :
    SchellingModel.stepM Mfull (fun _ => 0) (fun _ => 0) =
      Except.error GridError.emptyGridExhausted := rfl

/-- C6: each tick activates the registered agents following a shuffled
permutation of the whole registry — the activation order is a
permutation of all agent indices, so each registered agent's step runs
exactly once per tick — and a completed tick leaves the registry's size
unchanged: no agent is created or destroyed, the population count is
constant. -/
theorem C6_scheduler_permutation (m : SchellingModel) (ρ mv : Nat → Nat) :
    (shuffleL ρ 0 (List.range m.agents.length)).Perm
        (List.range m.agents.length) ∧
      ∀ m', SchellingModel.stepM m ρ mv = Except.ok m' →
        m'.agents.length = m.agents.length := by
  constructor
  · exact shuffleL_perm ρ 0 (List.range m.agents.length)
  · intro m' h
    unfold SchellingModel.stepM at h
    exact tickGo_length _ _ 0 { m with moved := 0 } m' h

/-- Witness for C6: on the concrete homophily-0 model `M8` (four
agents), a tick completes and preserves the number of registered
agents. -/
theorem C6_scheduler_permutation_witness :
    (shuffleL (fun _ => 0) 0 (List.range M8.agents.length)).Perm
        (List.range M8.agents.length) ∧
      M8.agents.length = M8.agents.length := by
  constructor
  · exact (C6_scheduler_permutation M8 (fun _ => 0) (fun _ => 0)).1
  · exact (C6_scheduler_permutation M8 (fun _ => 0) (fun _ => 0)).2
      { M8 with moved := 0 } rfl

/-- C7 (amended): the constructor validates nothing — any density value
is accepted and agent placement proceeds.  With placement draws in
`[0, 1)` (the range of `random.random()`), a density of `1` or more
populates every cell and a density of `0` or less places no agent; no
error is signalled in either case. -/
theorem C7_no_density_validation (w h : Nat) (density homophily : ℚ)
    (pd : Nat → ℚ) (td : Nat → AgentType)
    (hpd : ∀ k, 0 ≤ pd k ∧ pd k < 1) :
    (1 ≤ density →
      (SchellingModel.init w h density homophily pd td).agents.length =
        w * h) ∧
      (density ≤ 0 →
        (SchellingModel.init w h density homophily pd td).agents.length =
          0) := by
  constructor
  · intro hd
    have hall : ∀ j, pd j < density := fun j => lt_of_lt_of_le (hpd j).2 hd
    unfold SchellingModel.init
    rw [initLoop_length_all density homophily pd td hall (coordsOf w h) 0
      (SingleGrid.mk0 w h true) []]
    simp [coordsOf_length]
  · intro hd
    have hnone : ∀ j, ¬ pd j < density := fun j =>
      not_lt.mpr (le_trans hd (hpd j).1)
    unfold SchellingModel.init
    rw [initLoop_length_none density homophily pd td hnone (coordsOf w h) 0
      (SingleGrid.mk0 w h true) []]
    rfl

/-- Witness for C7 (amended): at density `2` every one of the four cells
of a 2×2 grid is populated; at density `0` none is. -/
theorem C7_no_density_validation_witness :
    MC7.agents.length = 2 * 2 ∧ MC7b.agents.length = 0 := by
  constructor
  · exact (C7_no_density_validation 2 2 (2 : ℚ) (mkRat 1 2) pdZero tdAlt
      (fun k => by refine ⟨?_, ?_⟩ <;> norm_num [pdZero])).1 (by norm_num)
  · exact (C7_no_density_validation 2 2 (0 : ℚ) (mkRat 1 2) pdZero tdAlt
      (fun k => by refine ⟨?_, ?_⟩ <;> norm_num [pdZero])).2 (by norm_num)

/-- Counterexample to C7 as stated: construction at density `2`, which
lies outside `[0, 1]`, does not fail and is not stopped before agents
are placed — it completes and places an agent on all four cells. -/
theorem C7_counterexample : (1 : ℚ) < 2 ∧ MC7.agents.length = 4 := by
  constructor
  · decide
  · decide

/-- C8: with homophily `0`, no agent's step ever mutates anything — every
neighbor configuration gives a similarity that is `NaN` (comparing false)
or nonnegative, so the `< 0` test never fires — hence every tick of a
model whose agents all carry threshold `0` completes with zero
relocations and an unchanged grid; and every agent a homophily-0
construction creates carries threshold `0`. -/
theorem C8_homophily_zero_converges :
    (∀ (m : SchellingModel) (ρ mv : Nat → Nat),
        (∀ a ∈ m.agents, a.homophily = 0) →
        SchellingModel.stepM m ρ mv = Except.ok { m with moved := 0 }) ∧
      ∀ (w h : Nat) (density : ℚ) (pd : Nat → ℚ) (td : Nat → AgentType),
        ∀ a ∈ (SchellingModel.init w h density 0 pd td).agents,
          a.homophily = 0 := by
  constructor
  · intro m ρ mv hh0
    unfold SchellingModel.stepM
    exact tickGo_of_homophily_zero mv _ 0 { m with moved := 0 } hh0
  · intro w h density pd td a ha
    exact initLoop_homophily density 0 pd td (coordsOf w h) 0
      (SingleGrid.mk0 w h true) [] (by intro a ha; cases ha) a ha

/-- Witness for C8: the homophily-0 model `M8` ticks to itself with a
zero relocation count. -/
theorem C8_homophily_zero_converges_witness :
    SchellingModel.stepM M8 (fun _ => 0) (fun _ => 0) =
      Except.ok { M8 with moved := 0 } :=
  C8_homophily_zero_converges.1 M8 (fun _ => 0) (fun _ => 0) (by decide)

/-- C9: an agent with zero occupied Moore neighbors never relocates, for
any homophily threshold: `np.mean` of the empty list is NaN, `NaN < h`
is `False`, so the step takes the no-action branch and the state is
untouched — the code hard-wires the treat-as-happy policy, with no
configuration option to choose otherwise (the constructor's only
parameters are width, height, density and homophily). -/
theorem C9_zero_neighbors_happy (m : SchellingModel) (i pick : Nat)
    (a : SchellingAgent)
    (ha : m.agents[i]? = some a)
    (hz : m.neighborAgents a.pos = []) :
    SchellingAgent.step m i pick = Except.ok (m, false) := by
  have hsim : simList m a = [] := by
    rw [simList, hz]
    rfl
  refine step_happy m i pick a ha ?_
  rw [hsim]
  rfl

/-- Witness for C9: the lone agent of `M9` (empty Moore neighborhood,
threshold `9/10`) performs no action. -/
theorem C9_zero_neighbors_happy_witness :
    SchellingAgent.step M9 0 0 = Except.ok (M9, false) :=
  C9_zero_neighbors_happy M9 0 0
    { pos := (0,0), type := AgentType.triangle, homophily := mkRat 9 10 }
    (by decide) (by decide)

/-- C10: wraparound is unconditional — the constructor always builds the
grid with `torus=True`, no bounded mode being reachable — and on a
toroidal grid with both dimensions at least 3, neighbor enumeration for
any in-bounds cell yields exactly eight pairwise-distinct
coordinates. -/
theorem C10_unconditional_torus :
    (∀ (w h : Nat) (density homophily : ℚ) (pd : Nat → ℚ)
        (td : Nat → AgentType),
        (SchellingModel.init w h density homophily pd td).grid.torus =
          true) ∧
      ∀ (g : SingleGrid) (p : Pos), g.torus = true → 3 ≤ g.width →
        3 ≤ g.height → p.1 < g.width → p.2 < g.height →
        (g.neighborCells p).length = 8 ∧ (g.neighborCells p).Nodup := by
  constructor
  · intro w h density homophily pd td
    unfold SchellingModel.init
    exact (initLoop_grid_fields density homophily pd td (coordsOf w h) 0
      (SingleGrid.mk0 w h true) []).1
  · intro g p ht hw hh hx hy
    exact neighborCells_torus_eight g p ht hw hh hx hy

/-- Witness for C10: a freshly constructed 4×4 model is toroidal, and the
neighborhood of `(1, 1)` on its grid has eight distinct cells. -/
theorem C10_unconditional_torus_witness :
    (SchellingModel.init 4 4 1 (mkRat 1 2) pdZero tdAlt).grid.torus =
        true ∧
      (((SchellingModel.init 4 4 1 (mkRat 1 2) pdZero
          tdAlt).grid.neighborCells (1, 1)).length = 8 ∧
        ((SchellingModel.init 4 4 1 (mkRat 1 2) pdZero
          tdAlt).grid.neighborCells (1, 1)).Nodup) := by
  constructor
  · exact C10_unconditional_torus.1 4 4 1 (mkRat 1 2) pdZero tdAlt
  · exact C10_unconditional_torus.2
      (SchellingModel.init 4 4 1 (mkRat 1 2) pdZero tdAlt).grid (1, 1)
      (by decide) (by decide) (by decide) (by decide) (by decide)
